import Mathlib

/-!
Shallow embedding of the piet-wgpu render context
(`src/vendor/piet-wgpu/src/context.rs`) and proofs about its
save/restore stack, clip stack, opaque/transparent geometry buckets
and the `finish()` draw ordering.

`f32`/`f64` machine values are modelled as rationals (exact arithmetic);
the `usize` alpha-layer indices and the `u32` depth counter as `Nat`.
The `HashMap<usize, TransparentLayer>` is modelled as an association
list with unique keys (the draw pass sorts the keys, so the map's
iteration order is irrelevant).
-/

namespace PietWgpu

/-- kurbo `Affine`: coefficients `[a, b, c, d, e, f]` of the matrix
`[[a, c, e], [b, d, f]]`; `e`, `f` are the translation components. -/
@[ext]
structure Affine where
  a : ℚ
  b : ℚ
  c : ℚ
  d : ℚ
  e : ℚ
  f : ℚ
deriving DecidableEq

/-- kurbo affine composition (`Mul for Affine`). -/
def Affine.mul (p q : Affine) : Affine :=
  ⟨p.a * q.a + p.c * q.b,
   p.b * q.a + p.d * q.b,
   p.a * q.c + p.c * q.d,
   p.b * q.c + p.d * q.d,
   p.a * q.e + p.c * q.f + p.e,
   p.b * q.e + p.d * q.f + p.f⟩

instance : Mul Affine := ⟨Affine.mul⟩

/-- kurbo `Affine::IDENTITY` (= `Affine::default()`). -/
instance : One Affine := ⟨⟨1, 0, 0, 1, 0, 0⟩⟩

theorem Affine.mul_def (p q : Affine) : p * q = Affine.mul p q := rfl

theorem Affine.one_def : (1 : Affine) = ⟨1, 0, 0, 1, 0, 0⟩ := rfl

theorem Affine.mul_one (p : Affine) : p * 1 = p := by
  ext <;> simp [Affine.mul_def, Affine.mul, Affine.one_def]

theorem Affine.one_mul (p : Affine) : 1 * p = p := by
  ext <;> simp [Affine.mul_def, Affine.mul, Affine.one_def]

theorem Affine.mul_assoc (p q r : Affine) : p * q * r = p * (q * r) := by
  ext <;> simp [Affine.mul_def, Affine.mul] <;> ring

/-- kurbo `Point`. -/
@[ext]
structure Point where
  x : ℚ
  y : ℚ
deriving DecidableEq

/-- kurbo `Rect` (`x0, y0, x1, y1`). -/
@[ext]
structure Rect where
  x0 : ℚ
  y0 : ℚ
  x1 : ℚ
  y1 : ℚ
deriving DecidableEq

/-- kurbo `Rect + Vec2` : translate both corners. -/
def Rect.translate (r : Rect) (dx dy : ℚ) : Rect :=
  ⟨r.x0 + dx, r.y0 + dy, r.x1 + dx, r.y1 + dy⟩

/-- kurbo `Rect::inflate(width, height)`:
`Rect::new(x0 - width, y0 - height, x1 + width, y1 + height)`. -/
def Rect.inflate (r : Rect) (w h : ℚ) : Rect :=
  ⟨r.x0 - w, r.y0 - h, r.x1 + w, r.y1 + h⟩

/-- Modelled from the spec: kurbo's `Rect::intersect` (the kurbo crate is a
vendored dependency whose source is not under `src/`) — "a nested clip
intersects with the current clip"; corner-wise max/min with the result
clamped to non-negative width and height. -/
def Rect.intersect (r other : Rect) : Rect :=
  let x0 := max r.x0 other.x0
  let y0 := max r.y0 other.y0
  let x1 := min r.x1 other.x1
  let y1 := min r.y1 other.y1
  ⟨x0, y0, max x1 x0, max y1 y0⟩

/-- A `[f32; 4]` value used for rects and clip rects in instance records. -/
@[ext]
structure F4 where
  v0 : ℚ
  v1 : ℚ
  v2 : ℚ
  v3 : ℚ
deriving DecidableEq

def Rect.toF4 (r : Rect) : F4 := ⟨r.x0, r.y0, r.x1, r.y1⟩

def F4.toRect (c : F4) : Rect := ⟨c.v0, c.v1, c.v2, c.v3⟩

/-- The sentinel clip value used when no clip is active. -/
def zero4 : F4 := ⟨0, 0, 0, 0⟩

/-- An rgba color as produced by `format_color` (components in `[0, 1]`). -/
@[ext]
structure Color4 where
  r : ℚ
  g : ℚ
  b : ℚ
  a : ℚ
deriving DecidableEq

/-- `Quad` instance record. -/
@[ext]
structure Quad where
  rect : F4
  color : Color4
  depth : ℚ
  clip : F4
deriving DecidableEq

/-- `BlurQuad` instance record. -/
@[ext]
structure BlurQuad where
  rect : F4
  blurRect : F4
  blurRadius : ℚ
  color : Color4
  depth : ℚ
  clip : F4
deriving DecidableEq

/-- `Tex` instance record (textured quad). -/
@[ext]
structure Tex where
  rect : F4
  texRect : F4
  color : Color4
  depth : ℚ
  clip : F4
deriving DecidableEq

/-- `Vertex` record for tessellated triangle meshes. -/
@[ext]
structure Vertex where
  pos : Point
  color : Color4
  depth : ℚ
  clip : F4
deriving DecidableEq

/-- lyon `VertexBuffers<Vertex, u32>`. -/
@[ext]
structure VertexBuffers where
  vertices : List Vertex
  indices : List Nat
deriving DecidableEq

def VertexBuffers.empty : VertexBuffers := ⟨[], []⟩

/-- Appending a tessellated mesh into a vertex buffer: the
`BuffersBuilder` offsets new indices by the existing vertex count. -/
def VertexBuffers.appendMesh (vb : VertexBuffers) (vs : List Vertex)
    (is : List Nat) : VertexBuffers :=
  ⟨vb.vertices ++ vs, vb.indices ++ is.map (· + vb.vertices.length)⟩

/-- `TransparentLayer`: one transparent bucket. -/
@[ext]
structure TransparentLayer where
  quads : List Quad
  blurredQuads : List BlurQuad
  triangles : VertexBuffers
  texts : List Tex
  colorTexts : List Tex
  atlas : List Tex
deriving DecidableEq

def TransparentLayer.new : TransparentLayer :=
  ⟨[], [], VertexBuffers.empty, [], [], []⟩

/-- `Layer`: the opaque bucket (`quads`, `triangles`) plus the mapping
from alpha-layer index to transparent bucket, modelled as an
association list. -/
@[ext]
structure Layer where
  quads : List Quad
  triangles : VertexBuffers
  transparent : List (Nat × TransparentLayer)
deriving DecidableEq

def Layer.new : Layer := ⟨[], VertexBuffers.empty, []⟩

/-- Keys of the transparent-bucket mapping. -/
def tKeys (m : List (Nat × TransparentLayer)) : List Nat := m.map Prod.fst

/-- Association-list lookup (`HashMap::get`). -/
def findTL : List (Nat × TransparentLayer) → Nat → Option TransparentLayer
  | [], _ => none
  | p :: rest, k => if p.1 = k then some p.2 else findTL rest k

/-- The bucket stored at key `k` (`TransparentLayer::new()` if absent). -/
def tlAt (m : List (Nat × TransparentLayer)) (k : Nat) : TransparentLayer :=
  (findTL m k).getD TransparentLayer.new

/-- The `contains_key` / `insert(TransparentLayer::new())` / `get_mut`
pattern used by every `Layer::add_*` method: update the bucket at `k`,
inserting a fresh bucket first when the key is absent. -/
def modifyTL : List (Nat × TransparentLayer) → Nat →
    (TransparentLayer → TransparentLayer) → List (Nat × TransparentLayer)
  | [], k, f => [(k, f TransparentLayer.new)]
  | p :: rest, k, f =>
    if p.1 = k then (p.1, f p.2) :: rest else p :: modifyTL rest k f

theorem tlAt_modifyTL_self (m : List (Nat × TransparentLayer)) (k : Nat)
    (f : TransparentLayer → TransparentLayer) :
    tlAt (modifyTL m k f) k = f (tlAt m k) := by
  induction m with
  | nil => simp [modifyTL, tlAt, findTL]
  | cons p rest ih =>
    by_cases h : p.1 = k
    · simp [modifyTL, h, tlAt, findTL]
    · simpa [modifyTL, h, tlAt, findTL] using ih

theorem tlAt_modifyTL_other (m : List (Nat × TransparentLayer)) (k k' : Nat)
    (f : TransparentLayer → TransparentLayer) (h : k' ≠ k) :
    tlAt (modifyTL m k f) k' = tlAt m k' := by
  have hks : ¬ k = k' := fun hh => h hh.symm
  induction m with
  | nil => simp [modifyTL, tlAt, findTL, hks]
  | cons p rest ih =>
    by_cases hp : p.1 = k
    · have hpk : ¬ p.1 = k' := fun hh => h (hh.symm.trans hp)
      simp [modifyTL, hp, tlAt, findTL, hpk, hks]
    · by_cases hp' : p.1 = k'
      · simp [modifyTL, hp, tlAt, findTL, hp', h]
      · simpa [modifyTL, hp, tlAt, findTL, hp'] using ih

theorem tKeys_modifyTL (m : List (Nat × TransparentLayer)) (k : Nat)
    (f : TransparentLayer → TransparentLayer) :
    tKeys (modifyTL m k f) = if k ∈ tKeys m then tKeys m else tKeys m ++ [k] := by
  induction m with
  | nil => simp [modifyTL, tKeys]
  | cons p rest ih =>
    by_cases h : p.1 = k
    · simp [modifyTL, h, tKeys]
    · have hk : ¬ k = p.1 := fun hh => h hh.symm
      by_cases hmem : k ∈ List.map Prod.fst rest
      · simp [modifyTL, h, tKeys, hmem, hk] at ih ⊢
        exact ih
      · simp [modifyTL, h, tKeys, hmem, hk] at ih ⊢
        exact ih

/-- `Layer::add_quad`: quads with `color[3] < 1.0` go to the transparent
bucket at `alpha_depth`; all others go to the opaque `quads` list. -/
def Layer.addQuad (l : Layer) (rect : F4) (color : Color4) (depth : ℚ)
    (clip : F4) (alphaDepth : Nat) : Layer :=
  let quad : Quad := ⟨rect, color, depth, clip⟩
  if color.a < 1 then
    { l with transparent :=
        (modifyTL l.transparent alphaDepth
          (fun tl => { tl with quads := tl.quads ++ [quad] })) }
  else
    { l with quads := l.quads ++ [quad] }

/-- `Layer::add_blurred_quad`: always goes to the transparent bucket at
`alpha_depth`, with no test on the color's alpha. -/
def Layer.addBlurredQuad (l : Layer) (rect blurRect : F4) (blurRadius : ℚ)
    (color : Color4) (depth : ℚ) (clip : F4) (alphaDepth : Nat) : Layer :=
  let quad : BlurQuad := ⟨rect, blurRect, blurRadius, color, depth, clip⟩
  { l with transparent :=
      (modifyTL l.transparent alphaDepth
        (fun tl => { tl with blurredQuads := tl.blurredQuads ++ [quad] })) }

/-- `Layer::add_text`. -/
def Layer.addText (l : Layer) (text : List Tex) (alphaDepth : Nat) : Layer :=
  { l with transparent :=
      (modifyTL l.transparent alphaDepth
        (fun tl => { tl with texts := tl.texts ++ text })) }

/-- `Layer::add_color_text`. -/
def Layer.addColorText (l : Layer) (text : List Tex) (alphaDepth : Nat) : Layer :=
  { l with transparent :=
      (modifyTL l.transparent alphaDepth
        (fun tl => { tl with colorTexts := tl.colorTexts ++ text })) }

/-- `Layer::add_atlas`. -/
def Layer.addAtlas (l : Layer) (tex : Tex) (alphaDepth : Nat) : Layer :=
  { l with transparent :=
      (modifyTL l.transparent alphaDepth
        (fun tl => { tl with atlas := tl.atlas ++ [tex] })) }

/-- `Layer::get_triangles` followed by the tessellator appending a mesh
through a `BuffersBuilder`: route the mesh into the opaque triangle
buffer, or the transparent bucket at `alpha_depth` (inserted on
demand) when `transparent` is set. -/
def Layer.addMesh (l : Layer) (transparent : Bool) (alphaDepth : Nat)
    (vs : List Vertex) (is : List Nat) : Layer :=
  if transparent then
    { l with transparent :=
        (modifyTL l.transparent alphaDepth
          (fun tl => { tl with triangles := tl.triangles.appendMesh vs is })) }
  else
    { l with triangles := l.triangles.appendMesh vs is }

/-- `Layer::reset`. -/
def Layer.reset (_l : Layer) : Layer := Layer.new

/-- kurbo path elements (`PathEl`). -/
inductive PathEl
  | moveTo (p : Point)
  | lineTo (p : Point)
  | quadTo (ctrl p : Point)
  | curveTo (c1 c2 p : Point)
  | closePath
deriving DecidableEq

/-- The kurbo `Shape` values the render context distinguishes: the
rectangle fast path (`as_rect`), the circle fast path (`as_circle`),
the line fast path (`as_line`), and general paths flattened to their
path elements. -/
inductive Shape
  | rect (r : Rect)
  | circle (center : Point) (radius : ℚ)
  | line (p0 p1 : Point)
  | path (els : List PathEl)
deriving DecidableEq

/-- `Shape::as_rect`: only an axis-aligned rectangle resolves. -/
def Shape.asRect : Shape → Option Rect
  | .rect r => some r
  | _ => none

/-- `Shape::as_circle`. -/
def Shape.asCircle : Shape → Option (Point × ℚ)
  | .circle c r => some (c, r)
  | _ => none

/-- `Shape::as_line`. -/
def Shape.asLine : Shape → Option (Point × Point)
  | .line p0 p1 => some (p0, p1)
  | _ => none

/-- Modelled from the spec: the number of segments a circular fill
tessellation emits ("vertex count proportional to tessellation
tolerance"); lyon's `FillTessellator::tessellate_circle` is a
vendored dependency whose source is not under `src/`. -/
def circleSegments (radius tol : ℚ) : Nat :=
  max 8 (Int.toNat ⌈radius / tol⌉)

theorem circleSegments_ge (radius tol : ℚ) : 8 ≤ circleSegments radius tol :=
  le_max_left _ _

/-- Modelled from the spec: a point of the circle boundary, produced by
an exact rational parametrization `t ↦ ((1 - t²)/(1 + t²), 2t/(1 + t²))`
of the unit circle. -/
def circlePoint (center : Point) (radius : ℚ) (i : Nat) : Point :=
  let t : ℚ := i
  ⟨center.x + radius * ((1 - t ^ 2) / (1 + t ^ 2)),
   center.y + radius * (2 * t / (1 + t ^ 2))⟩

/-- Modelled from the spec: lyon circular fill tessellation — a triangle
fan (center vertex plus one boundary vertex per segment) whose segment
count grows with `radius / tolerance`. -/
def tessellateCircle (center : Point) (radius tol : ℚ) :
    List Point × List Nat :=
  let n := circleSegments radius tol
  (center :: (List.range n).map (circlePoint center radius),
   (List.range n).foldr (fun i acc => 0 :: (i + 1) :: ((i + 1) % n + 1) :: acc) [])

theorem tessellateCircle_fst_length (center : Point) (radius tol : ℚ) :
    (tessellateCircle center radius tol).1.length = circleSegments radius tol + 1 := by
  simp [tessellateCircle]

/-- Modelled from the spec: flattening of a path-element sequence into a
polyline (general paths are tessellated "via flattened bezier/line
segments"; the flattening itself lives in lyon, not under `src/`). -/
def flattenEls : List PathEl → List Point
  | [] => []
  | .moveTo p :: rest => p :: flattenEls rest
  | .lineTo p :: rest => p :: flattenEls rest
  | .quadTo _ p :: rest => p :: flattenEls rest
  | .curveTo _ _ p :: rest => p :: flattenEls rest
  | .closePath :: rest => flattenEls rest

/-- `Shape::path_elements` for the shapes we distinguish (the element
sequences for rectangles, circles and lines are modelled from the spec;
a general path yields its own elements). -/
def Shape.pathElements : Shape → List PathEl
  | .rect r => [.moveTo ⟨r.x0, r.y0⟩, .lineTo ⟨r.x1, r.y0⟩,
      .lineTo ⟨r.x1, r.y1⟩, .lineTo ⟨r.x0, r.y1⟩, .closePath]
  | .circle c r => [.moveTo ⟨c.x + r, c.y⟩,
      .curveTo ⟨c.x + r, c.y + r⟩ ⟨c.x - r, c.y + r⟩ ⟨c.x - r, c.y⟩,
      .curveTo ⟨c.x - r, c.y - r⟩ ⟨c.x + r, c.y - r⟩ ⟨c.x + r, c.y⟩,
      .closePath]
  | .line p0 p1 => [.moveTo p0, .lineTo p1, .closePath]
  | .path els => els

/-- Modelled from the spec: lyon stroke tessellation of a polyline with
round caps/joins — one quad (4 vertices, 6 indices) per consecutive
point pair, each vertex offset by half the stroke width. -/
def strokePolyline (w : ℚ) : List Point → List Point × List Nat
  | [] => ([], [])
  | [_] => ([], [])
  | p :: q :: rest =>
    let (vs, is) := strokePolyline w (q :: rest)
    (⟨p.x - w / 2, p.y - w / 2⟩ :: ⟨p.x + w / 2, p.y + w / 2⟩ ::
       ⟨q.x - w / 2, q.y - w / 2⟩ :: ⟨q.x + w / 2, q.y + w / 2⟩ :: vs,
     0 :: 1 :: 2 :: 1 :: 2 :: 3 :: is.map (· + 4))

/-- `State`: the save-point snapshot pushed by `save()`. -/
@[ext]
structure Frame where
  relTransform : Affine
  transform : Affine
  nClip : Nat
  alphaDepth : Nat
deriving DecidableEq

/-- The fields of `Primitive` set by `add_primitive` (the remaining
fields of the GPU uniform struct are left at their defaults and are
not touched by the context). -/
@[ext]
structure Primitive where
  translate : Point
  clip : ℚ
  clipRect : F4
deriving DecidableEq

/-- `piet::Error` values the context produces. -/
inductive PietError
  | stackUnbalance
deriving DecidableEq

/-- `WgpuRenderContext`: the per-frame drawing state (the renderer,
tessellators and text handles carry no verified state and are
omitted). `stateStack` and `clipStack` are stored with the most
recently pushed entry at the head (`Vec::push`/`pop`/`last` act on
the head here). -/
@[ext]
structure RState where
  layer : Layer
  curTransform : Affine
  stateStack : List Frame
  clipStack : List F4
  primitives : List Primitive
  depth : Nat
  alphaDepth : Nat
deriving DecidableEq

/-- `get_current_clip`: the top of the clip stack, if any. -/
def RState.getCurrentClip (s : RState) : Option F4 := s.clipStack.head?

/-- `current_clip`: the top of the clip stack, or the `[0, 0, 0, 0]`
sentinel when no clip is active. -/
def RState.currentClip (s : RState) : F4 := s.getCurrentClip.getD zero4

/-- `add_primitive`: push a uniform snapshot of the current translation
and clip rectangle. -/
def RState.addPrimitive (s : RState) : RState :=
  { s with primitives :=
      s.primitives ++ [⟨⟨s.curTransform.e, s.curTransform.f⟩, 1, s.currentClip⟩] }

/-- `WgpuRenderContext::new`: fresh state followed by one
`add_primitive` call. -/
def newContext : RState :=
  RState.addPrimitive ⟨Layer.new, 1, [], [], [], 0, 0⟩

/-- `pop_clip`. -/
def RState.popClip (s : RState) : RState :=
  { s with clipStack := s.clipStack.tail }

/-- `set_alpha_depth`. -/
def RState.setAlphaDepth (s : RState) (alphaDepth : Nat) : RState :=
  { s with alphaDepth := alphaDepth }

/-- `incr_alpha_depth`. -/
def RState.incrAlphaDepth (s : RState) : RState :=
  { s with alphaDepth := s.alphaDepth + 1 }

/-- `save()`: push a snapshot (identity relative transform, the current
transform, zero clip count, the current alpha-layer index). -/
def RState.save (s : RState) : RState :=
  { s with stateStack := ⟨1, s.curTransform, 0, s.alphaDepth⟩ :: s.stateStack }

/-- `restore()`: pop the snapshot, restore the transform and alpha-layer
index, unwind as many clip entries as were pushed since the save, and
re-emit a primitive snapshot; with an empty stack, report
`StackUnbalance` and change nothing. -/
def RState.restore (s : RState) : Except PietError Unit × RState :=
  match s.stateStack with
  | [] => (.error .stackUnbalance, s)
  | f :: fs =>
    (.ok (), RState.addPrimitive
      { s with
        stateStack := fs
        curTransform := f.transform
        alphaDepth := f.alphaDepth
        clipStack := s.clipStack.drop f.nClip })

/-- `transform(mat)`: right-multiply the current transform, fold `mat`
into the top save-point's relative transform, re-emit a primitive. -/
def RState.transformBy (s : RState) (m : Affine) : RState :=
  RState.addPrimitive
    { s with
      stateStack :=
        (match s.stateStack with
         | [] => []
         | f :: fs => { f with relTransform := f.relTransform * m } :: fs)
      curTransform := s.curTransform * m }

/-- `add_clip_rect`: push the rect on the clip stack, count one clip
push against the top save-point (if any), re-emit a primitive. -/
def RState.addClipRect (s : RState) (r : Rect) : RState :=
  RState.addPrimitive
    { s with
      clipStack := r.toF4 :: s.clipStack
      stateStack :=
        (match s.stateStack with
         | [] => []
         | f :: fs => { f with nClip := f.nClip + 1 } :: fs) }

/-- `clip_override`: ignore non-rectangular shapes; otherwise translate
the rect by the current translation and push it. -/
def RState.clipOverride (s : RState) (shape : Shape) : RState :=
  match shape.asRect with
  | none => s
  | some r => s.addClipRect (r.translate s.curTransform.e s.curTransform.f)

/-- `clip_nested` (the body of `clip()`): with an active clip, push the
intersection of the translated rect with the current clip; otherwise
behave as `clip_override`. Non-rectangular shapes are ignored. -/
def RState.clipNested (s : RState) (shape : Shape) : RState :=
  match s.getCurrentClip with
  | none => s.clipOverride shape
  | some cur =>
    match shape.asRect with
    | none => s
    | some r =>
      s.addClipRect
        ((r.translate s.curTransform.e s.curTransform.f).intersect cur.toRect)

/-- The vertices the circle branch of `fill` feeds through its
`BuffersBuilder`: tessellated positions of the translated circle, each
carrying the resolved color, depth and clip. -/
def fillCircleVertices (s : RState) (center : Point) (radius : ℚ)
    (color : Color4) (depth : ℚ) (clip : F4) : List Vertex :=
  (tessellateCircle
      ⟨center.x + s.curTransform.e, center.y + s.curTransform.f⟩
      radius (2 / 100)).1.map (fun p => ⟨p, color, depth, clip⟩)

/-- The indices produced by the circle tessellation. -/
def fillCircleIndices (s : RState) (center : Point) (radius : ℚ) : List Nat :=
  (tessellateCircle
      ⟨center.x + s.curTransform.e, center.y + s.curTransform.f⟩
      radius (2 / 100)).2

/-- `fill(shape, brush)`: increment the depth counter; a rectangle emits
one quad instance (translated by the current translation), a circle is
tessellated into the routed triangle buffer; any other shape emits no
geometry (there is no fallback branch in the source). -/
def RState.fill (s : RState) (shape : Shape) (color : Color4) : RState :=
  let clip := s.currentClip
  let depth := s.depth + 1
  let depthQ : ℚ := depth
  match shape with
  | .rect r =>
    let r := r.translate s.curTransform.e s.curTransform.f
    { s with
      depth := depth
      layer := s.layer.addQuad r.toF4 color depthQ clip s.alphaDepth }
  | .circle center radius =>
    { s with
      depth := depth
      layer :=
        (s.layer.addMesh (color.a < 1) s.alphaDepth
          (fillCircleVertices s center radius color depthQ clip)
          (fillCircleIndices s center radius)) }
  | _ => { s with depth := depth }

/-- The polyline the stroke tessellator runs over: the rectangle and
line fast paths, or the flattened path elements. -/
def strokePoints (shape : Shape) : List Point :=
  match shape.asRect with
  | some r => [⟨r.x0, r.y0⟩, ⟨r.x1, r.y0⟩, ⟨r.x1, r.y1⟩, ⟨r.x0, r.y1⟩]
  | none =>
    match shape.asLine with
    | some (p0, p1) => [p0, p1]
    | none => flattenEls shape.pathElements

/-- The vertices the stroke `BuffersBuilder` emits: stroked mesh
positions translated by the current translation, each carrying the
resolved color, depth and clip. -/
def strokeVertices (s : RState) (shape : Shape) (width : ℚ) (color : Color4)
    (depth : ℚ) (clip : F4) : List Vertex :=
  (strokePolyline width (strokePoints shape)).1.map
    (fun p => ⟨⟨p.x + s.curTransform.e, p.y + s.curTransform.f⟩, color, depth, clip⟩)

/-- The indices the stroke tessellation emits. -/
def strokeIndices (shape : Shape) (width : ℚ) : List Nat :=
  (strokePolyline width (strokePoints shape)).2

/-- `stroke(shape, brush, width)`: increment the depth counter and
append the stroked triangle mesh to the routed bucket (transparent at
the current alpha-layer index when the color's alpha is below one). -/
def RState.stroke (s : RState) (shape : Shape) (color : Color4)
    (width : ℚ) : RState :=
  let clip := s.currentClip
  let depth := s.depth + 1
  let depthQ : ℚ := depth
  { s with
    depth := depth
    layer :=
      (s.layer.addMesh (color.a < 1) s.alphaDepth
        (strokeVertices s shape width color depthQ clip)
        (strokeIndices shape width)) }

/-- `blurred_rect(rect, blur_radius, brush)`: increment the depth
counter, translate the rect, inflate it by `3 * blur_radius`, deflate
a copy back for the sharp inner rect, and append one blurred-quad
instance to the transparent bucket at the current alpha-layer index. -/
def RState.blurredRect (s : RState) (rect : Rect) (blurRadius : ℚ)
    (color : Color4) : RState :=
  let depth := s.depth + 1
  let depthQ : ℚ := depth
  let clipRect := s.currentClip
  let rect1 := rect.translate s.curTransform.e s.curTransform.f
  let rect2 := rect1.inflate (3 * blurRadius) (3 * blurRadius)
  let blurRect := rect2.inflate (-(3 * blurRadius)) (-(3 * blurRadius))
  { s with
    depth := depth
    layer :=
      (s.layer.addBlurredQuad rect2.toF4 blurRect.toF4 blurRadius color
        depthQ clipRect s.alphaDepth) }

/-- `draw_image(image, dst_rect)`: the atlas-cache collaborator's answer
is passed in as `cache`; on a hit, append one textured-quad instance
(at the current depth, without incrementing it) with the translated,
rounded destination rect; on a miss, skip the draw. -/
def RState.drawImage (s : RState) (dst : Rect) (cache : Option F4) : RState :=
  match cache with
  | none => s
  | some texRect =>
    let e := s.curTransform.e
    let f := s.curTransform.f
    let tex : Tex :=
      ⟨⟨(round (dst.x0 + e) : ℤ), (round (dst.y0 + f) : ℤ),
        (round (dst.x1 + e) : ℤ), (round (dst.y1 + f) : ℤ)⟩,
       texRect, ⟨0, 0, 0, 0⟩, (s.depth : ℚ), s.currentClip⟩
    { s with layer := s.layer.addAtlas tex s.alphaDepth }

/-- The drawing-context calls a frame may issue (the subset that
touches the verified state). -/
inductive Op
  | save
  | restore
  | xform (m : Affine)
  | clip (shape : Shape)
  | incrAlpha
  | setAlpha (n : Nat)
  | fill (shape : Shape) (color : Color4)
  | stroke (shape : Shape) (color : Color4) (width : ℚ)
  | blur (rect : Rect) (radius : ℚ) (color : Color4)
deriving DecidableEq

/-- One step of the context (a failed `restore` leaves the state
unchanged, as in the source). -/
def execOp (s : RState) : Op → RState
  | .save => s.save
  | .restore => (s.restore).2
  | .xform m => s.transformBy m
  | .clip shape => s.clipNested shape
  | .incrAlpha => s.incrAlphaDepth
  | .setAlpha n => s.setAlphaDepth n
  | .fill shape color => s.fill shape color
  | .stroke shape color width => s.stroke shape color width
  | .blur rect radius color => s.blurredRect rect radius color

/-- Run a sequence of context calls. -/
def run (s : RState) : List Op → RState
  | [] => s
  | o :: p => run (execOp s o) p

theorem run_append (s : RState) (p q : List Op) :
    run s (p ++ q) = run (run s p) q := by
  induction p generalizing s with
  | nil => rfl
  | cons o p ih => simp [run, ih]

/-- The GPU/GL commands `Layer::draw` issues, in order. -/
inductive Cmd
  | disableBlend
  | enableBlend
  | blendFuncAlpha
  | blendFuncSrc1
  | depthMask (enabled : Bool)
  | drawQuads (qs : List Quad)
  | drawTriangles (vb : VertexBuffers)
  | drawTex (ts : List Tex) (mask : Bool)
  | drawBlurQuads (qs : List BlurQuad)
  | clearAll
  | enableDepthTest
deriving DecidableEq

/-- The alpha-layer keys of the transparent mapping, sorted ascending
(`depths.sort()` over the collected `HashMap` keys). -/
def sortedKeys (l : Layer) : List Nat :=
  List.insertionSort (· ≤ ·) (tKeys l.transparent)

/-- The command sequence one transparent bucket contributes: standard
blending for its quads, triangle mesh, colored glyphs and atlas
images; the src1-color blend function for its masked glyph run; then
standard blending again for its blurred quads. -/
def bucketCmds (tl : TransparentLayer) : List Cmd :=
  [.enableBlend, .blendFuncAlpha,
   .drawQuads tl.quads, .drawTriangles tl.triangles,
   .drawTex tl.colorTexts false, .drawTex tl.atlas false,
   .enableBlend, .blendFuncSrc1, .drawTex tl.texts true,
   .enableBlend, .blendFuncAlpha, .drawBlurQuads tl.blurredQuads]

/-- `Layer::draw`: opaque quads then opaque triangles with blending
disabled; disable depth writes; each transparent bucket in ascending
key order; then disable blending and re-enable depth writes. -/
def layerDraw (l : Layer) : List Cmd :=
  [.disableBlend, .blendFuncAlpha,
   .drawQuads l.quads, .drawTriangles l.triangles,
   .depthMask false]
  ++ ((sortedKeys l).map (fun k => bucketCmds (tlAt l.transparent k))).flatten
  ++ [.disableBlend, .depthMask true]

/-- `finish()`: clear color and depth, enable the depth test (LEQUAL,
depth writes on), then hand the layer to `Layer::draw`. -/
def finishCmds (s : RState) : List Cmd :=
  [.clearAll, .enableDepthTest, .depthMask true] ++ layerDraw s.layer

/-- The effect one context call is allowed to have between a `save` and
its matching `restore`: it keeps the frames below the top untouched,
pushes some clip entries `c2` on top of the clip stack, and accounts
for them in the top frame's clip count while preserving the frame's
saved transform and alpha-layer index. -/
def StepOk (o : Op) : Prop := ∀ s f fs, s.stateStack = f :: fs →
  ∃ f2 c2, (execOp s o).stateStack = f2 :: fs ∧
    (execOp s o).clipStack = c2 ++ s.clipStack ∧
    f2.nClip = f.nClip + c2.length ∧
    f2.transform = f.transform ∧
    f2.alphaDepth = f.alphaDepth

theorem stepOk_xform (m : Affine) : StepOk (.xform m) := by
  intro s f fs h
  refine ⟨{ f with relTransform := f.relTransform * m }, [], ?_, ?_, ?_, ?_, ?_⟩ <;>
    simp [execOp, RState.transformBy, RState.addPrimitive, h]

theorem stepOk_clip (shape : Shape) : StepOk (.clip shape) := by
  intro s f fs h
  cases hc : s.getCurrentClip with
  | none =>
    cases hr : shape.asRect with
    | none =>
      refine ⟨f, [], ?_, ?_, ?_, ?_, ?_⟩ <;>
        simp [execOp, RState.clipNested, hc, RState.clipOverride, hr, h]
    | some r =>
      refine ⟨{ f with nClip := f.nClip + 1 },
        [(r.translate s.curTransform.e s.curTransform.f).toF4], ?_, ?_, ?_, ?_, ?_⟩ <;>
        simp [execOp, RState.clipNested, hc, RState.clipOverride, hr, h,
          RState.addClipRect, RState.addPrimitive]
  | some cur =>
    cases hr : shape.asRect with
    | none =>
      refine ⟨f, [], ?_, ?_, ?_, ?_, ?_⟩ <;>
        simp [execOp, RState.clipNested, hc, hr, h]
    | some r =>
      refine ⟨{ f with nClip := f.nClip + 1 },
        [((r.translate s.curTransform.e s.curTransform.f).intersect cur.toRect).toF4],
        ?_, ?_, ?_, ?_, ?_⟩ <;>
        simp [execOp, RState.clipNested, hc, hr, h,
          RState.addClipRect, RState.addPrimitive]

theorem stepOk_incrAlpha : StepOk .incrAlpha := by
  intro s f fs h
  refine ⟨f, [], ?_, ?_, ?_, ?_, ?_⟩ <;>
    simp [execOp, RState.incrAlphaDepth, h]

theorem stepOk_setAlpha (n : Nat) : StepOk (.setAlpha n) := by
  intro s f fs h
  refine ⟨f, [], ?_, ?_, ?_, ?_, ?_⟩ <;>
    simp [execOp, RState.setAlphaDepth, h]

theorem stepOk_fill (shape : Shape) (color : Color4) : StepOk (.fill shape color) := by
  intro s f fs h
  refine ⟨f, [], ?_, ?_, ?_, ?_, ?_⟩ <;>
    cases shape <;> simp [execOp, RState.fill, h]

theorem stepOk_stroke (shape : Shape) (color : Color4) (width : ℚ) :
    StepOk (.stroke shape color width) := by
  intro s f fs h
  refine ⟨f, [], ?_, ?_, ?_, ?_, ?_⟩ <;>
    simp [execOp, RState.stroke, h]

theorem stepOk_blur (rect : Rect) (radius : ℚ) (color : Color4) :
    StepOk (.blur rect radius color) := by
  intro s f fs h
  refine ⟨f, [], ?_, ?_, ?_, ?_, ?_⟩ <;>
    simp [execOp, RState.blurredRect, h]

/-- Call sequences that may appear between a `save()` and its matching
`restore()`: drawing, transform, clip and alpha-layer changes, plus
properly nested `save`/`restore` pairs. -/
inductive Inner : List Op → Prop
  | nil : Inner []
  | xform (m : Affine) {b : List Op} : Inner b → Inner (Op.xform m :: b)
  | clip (shape : Shape) {b : List Op} : Inner b → Inner (Op.clip shape :: b)
  | incrAlpha {b : List Op} : Inner b → Inner (Op.incrAlpha :: b)
  | setAlpha (n : Nat) {b : List Op} : Inner b → Inner (Op.setAlpha n :: b)
  | fill (shape : Shape) (color : Color4) {b : List Op} :
      Inner b → Inner (Op.fill shape color :: b)
  | stroke (shape : Shape) (color : Color4) (width : ℚ) {b : List Op} :
      Inner b → Inner (Op.stroke shape color width :: b)
  | blur (rect : Rect) (radius : ℚ) (color : Color4) {b : List Op} :
      Inner b → Inner (Op.blur rect radius color :: b)
  | nest {b rest : List Op} : Inner b → Inner rest →
      Inner (Op.save :: b ++ Op.restore :: rest)

/-- Balanced sequences of `save()`/`restore()` calls: a concatenation
of `save ... restore` groups, each enclosing an `Inner` body. -/
inductive Balanced : List Op → Prop
  | nil : Balanced []
  | nest {b rest : List Op} : Inner b → Balanced rest →
      Balanced (Op.save :: b ++ Op.restore :: rest)

/-- What a whole `Inner` body does to the state, relative to the frame
`f` on top when it starts. -/
def InnerSpec (b : List Op) : Prop := ∀ s f fs, s.stateStack = f :: fs →
  ∃ f' c, (run s b).stateStack = f' :: fs ∧
    (run s b).clipStack = c ++ s.clipStack ∧
    f'.nClip = f.nClip + c.length ∧
    f'.transform = f.transform ∧
    f'.alphaDepth = f.alphaDepth

theorem innerSpec_nil : InnerSpec [] := by
  intro s f fs h
  exact ⟨f, [], by simpa [run] using h, by simp [run], by simp, rfl, rfl⟩

theorem innerSpec_cons {o : Op} {b : List Op} (ho : StepOk o)
    (hb : InnerSpec b) : InnerSpec (o :: b) := by
  intro s f fs h
  obtain ⟨f2, c2, h1, h2, h3, h4, h5⟩ := ho s f fs h
  obtain ⟨f', c, g1, g2, g3, g4, g5⟩ := hb (execOp s o) f2 fs h1
  refine ⟨f', c ++ c2, ?_, ?_, ?_, g4.trans h4, g5.trans h5⟩
  · simpa [run] using g1
  · show (run (execOp s o) b).clipStack = (c ++ c2) ++ s.clipStack
    rw [g2, h2, List.append_assoc]
  · rw [g3, h3, List.length_append]
    omega

theorem run_nest_decomp (s : RState) (b rest : List Op) :
    run s (Op.save :: b ++ Op.restore :: rest)
      = run (execOp (run (execOp s Op.save) b) Op.restore) rest := by
  show run s (Op.save :: (b ++ Op.restore :: rest)) = _
  rw [run, run_append, run]

theorem exec_restore_cons (t : RState) (g : Frame) (gs : List Frame)
    (h : t.stateStack = g :: gs) :
    execOp t Op.restore = RState.addPrimitive
      { t with stateStack := gs, curTransform := g.transform,
               alphaDepth := g.alphaDepth,
               clipStack := t.clipStack.drop g.nClip } := by
  simp [execOp, RState.restore, h]

theorem innerSpec_nest {b rest : List Op} (hb : InnerSpec b)
    (hrest : InnerSpec rest) :
    InnerSpec (Op.save :: b ++ Op.restore :: rest) := by
  intro s f fs h
  have hsave : (execOp s Op.save).stateStack
      = (⟨1, s.curTransform, 0, s.alphaDepth⟩ : Frame) :: f :: fs := by
    simp [execOp, RState.save, h]
  obtain ⟨g', c, g1, g2, g3, g4, g5⟩ := hb (execOp s Op.save) _ _ hsave
  have hclip2 : (run (execOp s Op.save) b).clipStack = c ++ s.clipStack := by
    simpa [execOp, RState.save] using g2
  have hres := exec_restore_cons (run (execOp s Op.save) b) g' (f :: fs) g1
  have hdrop : (run (execOp s Op.save) b).clipStack.drop g'.nClip = s.clipStack := by
    rw [hclip2, g3]
    simp
  have hmid1 : (execOp (run (execOp s Op.save) b) Op.restore).stateStack = f :: fs := by
    rw [hres]; simp [RState.addPrimitive]
  have hmid2 : (execOp (run (execOp s Op.save) b) Op.restore).clipStack = s.clipStack := by
    rw [hres]; simpa [RState.addPrimitive] using hdrop
  obtain ⟨f', c', k1, k2, k3, k4, k5⟩ :=
    hrest (execOp (run (execOp s Op.save) b) Op.restore) f fs hmid1
  refine ⟨f', c', ?_, ?_, k3, k4, k5⟩
  · rw [run_nest_decomp]; exact k1
  · rw [run_nest_decomp, k2, hmid2]

theorem inner_spec {b : List Op} (h : Inner b) : InnerSpec b := by
  induction h with
  | nil => exact innerSpec_nil
  | xform m _ ih => exact innerSpec_cons (stepOk_xform m) ih
  | clip shape _ ih => exact innerSpec_cons (stepOk_clip shape) ih
  | incrAlpha _ ih => exact innerSpec_cons stepOk_incrAlpha ih
  | setAlpha n _ ih => exact innerSpec_cons (stepOk_setAlpha n) ih
  | fill shape color _ ih => exact innerSpec_cons (stepOk_fill shape color) ih
  | stroke shape color width _ ih =>
    exact innerSpec_cons (stepOk_stroke shape color width) ih
  | blur rect radius color _ ih =>
    exact innerSpec_cons (stepOk_blur rect radius color) ih
  | nest _ _ ihb ihrest => exact innerSpec_nest ihb ihrest

theorem run_balanced {p : List Op} (h : Balanced p) (s : RState) :
    (run s p).stateStack = s.stateStack ∧ (run s p).clipStack = s.clipStack ∧
    (run s p).curTransform = s.curTransform ∧ (run s p).alphaDepth = s.alphaDepth := by
  induction h generalizing s with
  | nil => simp [run]
  | @nest b rest hb _ ihrest =>
    have hsave : (execOp s Op.save).stateStack
        = (⟨1, s.curTransform, 0, s.alphaDepth⟩ : Frame) :: s.stateStack := by
      simp [execOp, RState.save]
    obtain ⟨g', c, g1, g2, g3, g4, g5⟩ := inner_spec hb (execOp s Op.save) _ _ hsave
    have hclip2 : (run (execOp s Op.save) b).clipStack = c ++ s.clipStack := by
      simpa [execOp, RState.save] using g2
    have hres := exec_restore_cons (run (execOp s Op.save) b) g' s.stateStack g1
    have hdrop : (run (execOp s Op.save) b).clipStack.drop g'.nClip = s.clipStack := by
      rw [hclip2, g3]
      simp
    obtain ⟨k1, k2, k3, k4⟩ := ihrest (execOp (run (execOp s Op.save) b) Op.restore)
    rw [run_nest_decomp, k1, k2, k3, k4, hres]
    refine ⟨?_, ?_, ?_, ?_⟩ <;> simp [RState.addPrimitive, hdrop, g4, g5]
/-- The transform bookkeeping the save-stack actually maintains: the
top frame's `transform * relTransform` equals the current transform,
and each deeper frame's product equals the transform snapshot saved by
the frame directly above it. -/
def chainOk : Affine → List Frame → Prop
  | _, [] => True
  | cur, f :: fs => f.transform * f.relTransform = cur ∧ chainOk f.transform fs

theorem chainOk_execOp (o : Op) (s : RState)
    (h : chainOk s.curTransform s.stateStack) :
    chainOk (execOp s o).curTransform (execOp s o).stateStack := by
  cases o with
  | save =>
    simpa [execOp, RState.save, chainOk, Affine.mul_one] using h
  | restore =>
    cases hs : s.stateStack with
    | nil => simpa [execOp, RState.restore, hs] using h
    | cons f fs =>
      rw [hs, chainOk] at h
      simpa [execOp, RState.restore, hs, RState.addPrimitive] using h.2
  | xform m =>
    cases hs : s.stateStack with
    | nil => simp [execOp, RState.transformBy, RState.addPrimitive, hs, chainOk]
    | cons f fs =>
      rw [hs, chainOk] at h
      refine ?_
      simp only [execOp, RState.transformBy, RState.addPrimitive, hs, chainOk]
      exact ⟨by rw [← Affine.mul_assoc, h.1], h.2⟩
  | clip shape =>
    cases hc : s.getCurrentClip with
    | none =>
      cases hr : shape.asRect with
      | none => simpa [execOp, RState.clipNested, hc, RState.clipOverride, hr] using h
      | some r =>
        cases hs : s.stateStack with
        | nil =>
          simp [execOp, RState.clipNested, hc, RState.clipOverride, hr, hs,
            RState.addClipRect, RState.addPrimitive, chainOk]
        | cons f fs =>
          rw [hs, chainOk] at h
          simpa [execOp, RState.clipNested, hc, RState.clipOverride, hr, hs,
            RState.addClipRect, RState.addPrimitive, chainOk] using h
    | some cur =>
      cases hr : shape.asRect with
      | none => simpa [execOp, RState.clipNested, hc, hr] using h
      | some r =>
        cases hs : s.stateStack with
        | nil =>
          simp [execOp, RState.clipNested, hc, hr, hs,
            RState.addClipRect, RState.addPrimitive, chainOk]
        | cons f fs =>
          rw [hs, chainOk] at h
          simpa [execOp, RState.clipNested, hc, hr, hs,
            RState.addClipRect, RState.addPrimitive, chainOk] using h
  | incrAlpha => simpa [execOp, RState.incrAlphaDepth] using h
  | setAlpha n => simpa [execOp, RState.setAlphaDepth] using h
  | fill shape color =>
    cases shape <;> simpa [execOp, RState.fill] using h
  | stroke shape color width => simpa [execOp, RState.stroke] using h
  | blur rect radius color => simpa [execOp, RState.blurredRect] using h

theorem chainOk_run (p : List Op) (s : RState)
    (h : chainOk s.curTransform s.stateStack) :
    chainOk (run s p).curTransform (run s p).stateStack := by
  induction p generalizing s with
  | nil => exact h
  | cons o q ih => exact ih (execOp s o) (chainOk_execOp o s h)

theorem chainOk_newContext : chainOk newContext.curTransform newContext.stateStack := by
  simp [newContext, RState.addPrimitive, chainOk]

/-- Claim C4: whenever `restore()` is called with an empty state stack,
it returns the stack-imbalance error and leaves the current transform,
the clip stack, and the alpha-layer index unchanged. -/
theorem claim4_restore_imbalance (s : RState) (h : s.stateStack = []) :
    s.restore = (Except.error PietError.stackUnbalance, s) ∧
    (s.restore).2.curTransform = s.curTransform ∧
    (s.restore).2.clipStack = s.clipStack ∧
    (s.restore).2.alphaDepth = s.alphaDepth := by
  refine ⟨?_, ?_, ?_, ?_⟩ <;> simp [RState.restore, h]

theorem claim4_witness :
    newContext.stateStack = [] ∧
    (newContext.restore = (Except.error PietError.stackUnbalance, newContext) ∧
     (newContext.restore).2.curTransform = newContext.curTransform ∧
     (newContext.restore).2.clipStack = newContext.clipStack ∧
     (newContext.restore).2.alphaDepth = newContext.alphaDepth) :=
  ⟨rfl, claim4_restore_imbalance newContext rfl⟩

/-- Claim C8: every `blurred_rect(rect, blur_radius, brush)` call
increments the depth counter by exactly one and emits exactly one
blurred-quad instance into the current alpha-layer's bucket, whose
outer rect is the translated input rect inflated by `3 * blur_radius`
on each side and whose inner blur rect is exactly the translated input
rect, carrying the incremented depth. -/
theorem claim8_blurred_rect (s : RState) (rect : Rect) (radius : ℚ)
    (color : Color4) :
    (s.blurredRect rect radius color).depth = s.depth + 1 ∧
    (tlAt (s.blurredRect rect radius color).layer.transparent s.alphaDepth).blurredQuads
      = (tlAt s.layer.transparent s.alphaDepth).blurredQuads
        ++ [⟨((rect.translate s.curTransform.e s.curTransform.f).inflate
                (3 * radius) (3 * radius)).toF4,
             (rect.translate s.curTransform.e s.curTransform.f).toF4,
             radius, color, ((s.depth + 1 : ℕ) : ℚ), s.currentClip⟩] := by
  refine ⟨rfl, ?_⟩
  have hblur :
      ((rect.translate s.curTransform.e s.curTransform.f).inflate
          (3 * radius) (3 * radius)).inflate (-(3 * radius)) (-(3 * radius))
        = rect.translate s.curTransform.e s.curTransform.f := by
    ext <;> simp [Rect.inflate, Rect.translate]
  simp [RState.blurredRect, Layer.addBlurredQuad, tlAt_modifyTL_self, hblur]

/-- Claim C9: every blurred-quad record is appended to the transparent
bucket keyed by the current alpha-layer index regardless of the brush
color's alpha — the opaque bucket (quads and triangle mesh) is never
touched, even for a fully opaque color. -/
theorem claim9_blur_always_transparent (s : RState) (rect : Rect)
    (radius : ℚ) (color : Color4) :
    (s.blurredRect rect radius color).layer.quads = s.layer.quads ∧
    (s.blurredRect rect radius color).layer.triangles = s.layer.triangles ∧
    ((tlAt (s.blurredRect rect radius color).layer.transparent
        s.alphaDepth).blurredQuads).length
      = ((tlAt s.layer.transparent s.alphaDepth).blurredQuads).length + 1 := by
  refine ⟨rfl, rfl, ?_⟩
  simp [RState.blurredRect, Layer.addBlurredQuad, tlAt_modifyTL_self]

/-- Claim C3: after any balanced sequence of `save()`/`restore()` calls
(each `restore` matching a prior `save`, with transform, clip and
alpha-layer changes in between), the current transform, the clip-stack
depth and the alpha-layer index equal their values before it. -/
theorem claim3_balanced_roundtrip (p : List Op) (s : RState)
    (h : Balanced p) :
    (run s p).curTransform = s.curTransform ∧
    (run s p).clipStack.length = s.clipStack.length ∧
    (run s p).alphaDepth = s.alphaDepth := by
  obtain ⟨-, h2, h3, h4⟩ := run_balanced h s
  exact ⟨h3, by rw [h2], h4⟩

/-- A balanced program: save; transform; clip; raise the alpha layer;
a nested save/restore pair; restore. -/
def progC3 : List Op :=
  [Op.save, Op.xform ⟨1, 0, 0, 1, 3, 4⟩, Op.clip (Shape.rect ⟨0, 0, 5, 5⟩),
   Op.incrAlpha, Op.save, Op.xform ⟨2, 0, 0, 2, 0, 0⟩, Op.restore, Op.restore]

theorem balanced_progC3 : Balanced progC3 :=
  Balanced.nest
    (Inner.xform _ (Inner.clip _ (Inner.incrAlpha
      (Inner.nest (Inner.xform _ Inner.nil) Inner.nil))))
    Balanced.nil

theorem claim3_witness :
    Balanced progC3 ∧
    ((run newContext progC3).curTransform = newContext.curTransform ∧
     (run newContext progC3).clipStack.length = newContext.clipStack.length ∧
     (run newContext progC3).alphaDepth = newContext.alphaDepth) :=
  ⟨balanced_progC3, claim3_balanced_roundtrip progC3 newContext balanced_progC3⟩

/-- A frame sequence refuting "product equals the current transform at
every stack depth": two nested saves, each followed by a translation. -/
def progC7 : List Op :=
  [Op.save, Op.xform ⟨1, 0, 0, 1, 1, 0⟩, Op.save, Op.xform ⟨1, 0, 0, 1, 0, 1⟩]

/-- The frame at the bottom of the stack after running `progC7`. -/
def frameC7 : Frame := ⟨⟨1, 0, 0, 1, 1, 0⟩, 1, 0, 0⟩

/-- Claim C7 counterexample: after `save; transform(T1); save;
transform(T2)` the bottom frame's `transform * relTransform` differs
from the current transform, so the invariant fails at that stack
depth. -/
theorem claim7_counterexample :
    (run newContext progC7).stateStack
      = [⟨⟨1, 0, 0, 1, 0, 1⟩, ⟨1, 0, 0, 1, 1, 0⟩, 0, 0⟩, frameC7] ∧
    frameC7.transform * frameC7.relTransform
      ≠ (run newContext progC7).curTransform := by
  constructor
  · simp [progC7, run, execOp, RState.save, RState.transformBy,
      RState.addPrimitive, newContext, frameC7, Affine.mul_def, Affine.mul,
      Affine.one_def]
  · simp [progC7, run, execOp, RState.save, RState.transformBy,
      RState.addPrimitive, newContext, frameC7, Affine.mul_def, Affine.mul,
      Affine.one_def]

/-- Claim C7 (amended): at every point during a frame, the topmost
frame's saved parent transform times its relative transform equals the
current transform; each deeper frame's product instead equals the
parent-transform snapshot saved by the frame directly above it. -/
theorem claim7_top_frame_invariant (p : List Op) (f : Frame)
    (fs : List Frame) (h : (run newContext p).stateStack = f :: fs) :
    f.transform * f.relTransform = (run newContext p).curTransform ∧
    chainOk f.transform fs := by
  have hc := chainOk_run p newContext chainOk_newContext
  rw [h, chainOk] at hc
  exact hc

theorem claim7_witness :
    (run newContext [Op.save]).stateStack = [⟨1, 1, 0, 0⟩] ∧
    ((⟨1, 1, 0, 0⟩ : Frame).transform * (⟨1, 1, 0, 0⟩ : Frame).relTransform
       = (run newContext [Op.save]).curTransform ∧
     chainOk (⟨1, 1, 0, 0⟩ : Frame).transform []) :=
  ⟨rfl, claim7_top_frame_invariant [Op.save] _ _ rfl⟩

theorem Rect.translate_zero (r : Rect) : r.translate 0 0 = r := by
  ext <;> simp [Rect.translate]

theorem Rect.intersect_inner (A B : Rect)
    (hx0 : A.x0 ≤ B.x0) (hx1 : B.x1 ≤ A.x1)
    (hy0 : A.y0 ≤ B.y0) (hy1 : B.y1 ≤ A.y1)
    (hwx : B.x0 ≤ B.x1) (hwy : B.y0 ≤ B.y1) :
    B.intersect A = B := by
  have e1 : max B.x0 A.x0 = B.x0 := max_eq_left hx0
  have e2 : max B.y0 A.y0 = B.y0 := max_eq_left hy0
  have e3 : min B.x1 A.x1 = B.x1 := min_eq_left hx1
  have e4 : min B.y1 A.y1 = B.y1 := min_eq_left hy1
  ext <;> simp [Rect.intersect, e1, e2, e3, e4, max_eq_left hwx, max_eq_left hwy]

theorem Rect.intersect_outer (A B : Rect)
    (hx0 : A.x0 ≤ B.x0) (hx1 : B.x1 ≤ A.x1)
    (hy0 : A.y0 ≤ B.y0) (hy1 : B.y1 ≤ A.y1)
    (hwx : B.x0 ≤ B.x1) (hwy : B.y0 ≤ B.y1) :
    A.intersect B = B := by
  have e1 : max A.x0 B.x0 = B.x0 := max_eq_right hx0
  have e2 : max A.y0 B.y0 = B.y0 := max_eq_right hy0
  have e3 : min A.x1 B.x1 = B.x1 := min_eq_right hx1
  have e4 : min A.y1 B.y1 = B.y1 := min_eq_right hy1
  ext <;> simp [Rect.intersect, e1, e2, e3, e4, max_eq_left hwx, max_eq_left hwy]

/-- Claim C6: with the identity transform and no active clip, for
rectangles `B` fully inside `A`, both `clip(A); clip(B)` and
`clip(B); clip(A)` leave the effective (topmost) clip equal to `B`,
because a nested clip intersects the new rectangle with the current
clip. -/
theorem claim6_nested_clip (s : RState) (A B : Rect)
    (hT : s.curTransform = 1) (hC : s.clipStack = [])
    (hx0 : A.x0 ≤ B.x0) (hx1 : B.x1 ≤ A.x1)
    (hy0 : A.y0 ≤ B.y0) (hy1 : B.y1 ≤ A.y1)
    (hwx : B.x0 ≤ B.x1) (hwy : B.y0 ≤ B.y1) :
    (run s [Op.clip (Shape.rect A), Op.clip (Shape.rect B)]).getCurrentClip
      = some B.toF4 ∧
    (run s [Op.clip (Shape.rect B), Op.clip (Shape.rect A)]).getCurrentClip
      = some B.toF4 := by
  have hT0 : s.curTransform.e = 0 := by rw [hT]; rfl
  have hT1 : s.curTransform.f = 0 := by rw [hT]; rfl
  constructor
  · simp [run, execOp, RState.clipNested, RState.clipOverride, RState.getCurrentClip,
      RState.addClipRect, RState.addPrimitive, hC, hT0, hT1, Shape.asRect,
      Rect.translate_zero, F4.toRect, Rect.toF4,
      Rect.intersect_inner A B hx0 hx1 hy0 hy1 hwx hwy]
  · simp [run, execOp, RState.clipNested, RState.clipOverride, RState.getCurrentClip,
      RState.addClipRect, RState.addPrimitive, hC, hT0, hT1, Shape.asRect,
      Rect.translate_zero, F4.toRect, Rect.toF4,
      Rect.intersect_outer A B hx0 hx1 hy0 hy1 hwx hwy]

theorem claim6_witness :
    (newContext.curTransform = 1 ∧ newContext.clipStack = [] ∧
     (0:ℚ) ≤ 2 ∧ (5:ℚ) ≤ 10 ∧ (0:ℚ) ≤ 3 ∧ (6:ℚ) ≤ 10 ∧
     (2:ℚ) ≤ 5 ∧ (3:ℚ) ≤ 6) ∧
    ((run newContext [Op.clip (Shape.rect ⟨0, 0, 10, 10⟩),
        Op.clip (Shape.rect ⟨2, 3, 5, 6⟩)]).getCurrentClip
      = some (Rect.toF4 ⟨2, 3, 5, 6⟩) ∧
     (run newContext [Op.clip (Shape.rect ⟨2, 3, 5, 6⟩),
        Op.clip (Shape.rect ⟨0, 0, 10, 10⟩)]).getCurrentClip
      = some (Rect.toF4 ⟨2, 3, 5, 6⟩)) :=
  ⟨⟨rfl, rfl, by decide, by decide, by decide, by decide, by decide, by decide⟩,
   claim6_nested_clip newContext ⟨0, 0, 10, 10⟩ ⟨2, 3, 5, 6⟩ rfl rfl
     (by decide) (by decide) (by decide) (by decide) (by decide) (by decide)⟩

/-- Claim C10: when the clip stack is empty the resolved clip rectangle
is the `[0, 0, 0, 0]` sentinel, and every instance record emitted
while no clip is active — filled quad (opaque or transparent), blurred
quad, mesh vertex, textured quad, and the primitive snapshot — carries
that sentinel as its clip field. -/
theorem claim10_clip_sentinel (s : RState) (h : s.clipStack = []) :
    s.currentClip = zero4 ∧
    (∀ r color, (1:ℚ) ≤ color.a →
      (s.fill (Shape.rect r) color).layer.quads
        = s.layer.quads
          ++ [⟨(r.translate s.curTransform.e s.curTransform.f).toF4, color,
               ((s.depth + 1 : ℕ) : ℚ), zero4⟩]) ∧
    (∀ r color, color.a < 1 →
      (tlAt (s.fill (Shape.rect r) color).layer.transparent s.alphaDepth).quads
        = (tlAt s.layer.transparent s.alphaDepth).quads
          ++ [⟨(r.translate s.curTransform.e s.curTransform.f).toF4, color,
               ((s.depth + 1 : ℕ) : ℚ), zero4⟩]) ∧
    (∀ rect radius color,
      (tlAt (s.blurredRect rect radius color).layer.transparent
          s.alphaDepth).blurredQuads
        = (tlAt s.layer.transparent s.alphaDepth).blurredQuads
          ++ [⟨((rect.translate s.curTransform.e s.curTransform.f).inflate
                  (3 * radius) (3 * radius)).toF4,
               (rect.translate s.curTransform.e s.curTransform.f).toF4,
               radius, color, ((s.depth + 1 : ℕ) : ℚ), zero4⟩]) ∧
    (∀ center radius color depth,
      ∀ v ∈ fillCircleVertices s center radius color depth s.currentClip,
        v.clip = zero4) ∧
    (∀ dst texRect,
      (tlAt (s.drawImage dst (some texRect)).layer.transparent
          s.alphaDepth).atlas
        = (tlAt s.layer.transparent s.alphaDepth).atlas
          ++ [⟨⟨(round (dst.x0 + s.curTransform.e) : ℤ),
                (round (dst.y0 + s.curTransform.f) : ℤ),
                (round (dst.x1 + s.curTransform.e) : ℤ),
                (round (dst.y1 + s.curTransform.f) : ℤ)⟩,
               texRect, ⟨0, 0, 0, 0⟩, (s.depth : ℚ), zero4⟩]) ∧
    s.addPrimitive.primitives
      = s.primitives
        ++ [⟨⟨s.curTransform.e, s.curTransform.f⟩, 1, zero4⟩] := by
  have hcc : s.currentClip = zero4 := by
    simp [RState.currentClip, RState.getCurrentClip, h]
  refine ⟨hcc, ?_, ?_, ?_, ?_, ?_, ?_⟩
  · intro r color hge
    simp [RState.fill, Layer.addQuad, not_lt.mpr hge, hcc]
  · intro r color hlt
    simp [RState.fill, Layer.addQuad, hlt, tlAt_modifyTL_self, hcc]
  · intro rect radius color
    have hblur :
        ((rect.translate s.curTransform.e s.curTransform.f).inflate
            (3 * radius) (3 * radius)).inflate (-(3 * radius)) (-(3 * radius))
          = rect.translate s.curTransform.e s.curTransform.f := by
      ext <;> simp [Rect.inflate, Rect.translate]
    simp [RState.blurredRect, Layer.addBlurredQuad, tlAt_modifyTL_self, hblur, hcc]
  · intro center radius color depth v hv
    simp [fillCircleVertices, List.mem_map] at hv
    obtain ⟨p, -, rfl⟩ := hv
    exact hcc
  · intro dst texRect
    simp [RState.drawImage, Layer.addAtlas, tlAt_modifyTL_self, hcc]
  · simp [RState.addPrimitive, hcc]

theorem claim10_witness :
    newContext.clipStack = [] ∧ newContext.currentClip = zero4 :=
  ⟨rfl, (claim10_clip_sentinel newContext rfl).1⟩

/-- Claim C2: for every fill or stroke call, geometry whose resolved
color has alpha = 1 is appended to the opaque bucket (the transparent
mapping is untouched), and geometry with alpha < 1 is appended to the
transparent bucket keyed by the alpha-layer index current at call time
(the opaque quads and triangle mesh are untouched). -/
theorem claim2_alpha_routing (s : RState) (shape : Shape) (color : Color4)
    (width : ℚ) :
    ((1:ℚ) ≤ color.a →
      (s.fill shape color).layer.transparent = s.layer.transparent ∧
      (s.stroke shape color width).layer.transparent = s.layer.transparent) ∧
    (color.a < 1 →
      (s.fill shape color).layer.quads = s.layer.quads ∧
      (s.fill shape color).layer.triangles = s.layer.triangles ∧
      (s.stroke shape color width).layer.quads = s.layer.quads ∧
      (s.stroke shape color width).layer.triangles = s.layer.triangles) ∧
    (∀ r, shape = Shape.rect r →
      if color.a < 1 then
        (tlAt (s.fill shape color).layer.transparent s.alphaDepth).quads
          = (tlAt s.layer.transparent s.alphaDepth).quads
            ++ [⟨(r.translate s.curTransform.e s.curTransform.f).toF4, color,
                 ((s.depth + 1 : ℕ) : ℚ), s.currentClip⟩]
      else
        (s.fill shape color).layer.quads
          = s.layer.quads
            ++ [⟨(r.translate s.curTransform.e s.curTransform.f).toF4, color,
                 ((s.depth + 1 : ℕ) : ℚ), s.currentClip⟩]) ∧
    (∀ center radius, shape = Shape.circle center radius →
      if color.a < 1 then
        (tlAt (s.fill shape color).layer.transparent
            s.alphaDepth).triangles.vertices
          = (tlAt s.layer.transparent s.alphaDepth).triangles.vertices
            ++ fillCircleVertices s center radius color
                ((s.depth + 1 : ℕ) : ℚ) s.currentClip
      else
        (s.fill shape color).layer.triangles.vertices
          = s.layer.triangles.vertices
            ++ fillCircleVertices s center radius color
                ((s.depth + 1 : ℕ) : ℚ) s.currentClip) ∧
    (if color.a < 1 then
      (tlAt (s.stroke shape color width).layer.transparent
          s.alphaDepth).triangles.vertices
        = (tlAt s.layer.transparent s.alphaDepth).triangles.vertices
          ++ strokeVertices s shape width color
              ((s.depth + 1 : ℕ) : ℚ) s.currentClip
    else
      (s.stroke shape color width).layer.triangles.vertices
        = s.layer.triangles.vertices
          ++ strokeVertices s shape width color
              ((s.depth + 1 : ℕ) : ℚ) s.currentClip) := by
  refine ⟨?_, ?_, ?_, ?_, ?_⟩
  · intro hge
    have hn : ¬ color.a < 1 := not_lt.mpr hge
    constructor
    · cases shape <;>
        simp [RState.fill, Layer.addQuad, Layer.addMesh, hn]
    · simp [RState.stroke, Layer.addMesh, hn]
  · intro hlt
    refine ⟨?_, ?_, ?_, ?_⟩
    · cases shape <;>
        simp [RState.fill, Layer.addQuad, Layer.addMesh, hlt]
    · cases shape <;>
        simp [RState.fill, Layer.addQuad, Layer.addMesh, hlt]
    · simp [RState.stroke, Layer.addMesh, hlt]
    · simp [RState.stroke, Layer.addMesh, hlt]
  · rintro r rfl
    by_cases hA : color.a < 1
    · simp [hA, RState.fill, Layer.addQuad, tlAt_modifyTL_self]
    · simp [hA, RState.fill, Layer.addQuad]
  · rintro center radius rfl
    by_cases hA : color.a < 1
    · simp [hA, RState.fill, Layer.addMesh, tlAt_modifyTL_self,
        VertexBuffers.appendMesh]
    · simp [hA, RState.fill, Layer.addMesh, VertexBuffers.appendMesh]
  · by_cases hA : color.a < 1
    · simp [hA, RState.stroke, Layer.addMesh, tlAt_modifyTL_self,
        VertexBuffers.appendMesh]
    · simp [hA, RState.stroke, Layer.addMesh, VertexBuffers.appendMesh]

theorem claim2_witness :
    (1:ℚ) ≤ (⟨1, 0, 0, 1⟩ : Color4).a ∧
    ((newContext.fill (Shape.rect ⟨0, 0, 2, 2⟩) ⟨1, 0, 0, 1⟩).layer.transparent
       = newContext.layer.transparent ∧
     (newContext.stroke (Shape.rect ⟨0, 0, 2, 2⟩) ⟨1, 0, 0, 1⟩ 1).layer.transparent
       = newContext.layer.transparent) :=
  ⟨by decide,
   (claim2_alpha_routing newContext (Shape.rect ⟨0, 0, 2, 2⟩)
      ⟨1, 0, 0, 1⟩ 1).1 (by decide)⟩

/-- Total over the transparent buckets of a per-bucket count. -/
def sumTL (m : List (Nat × TransparentLayer)) (g : TransparentLayer → Nat) : Nat :=
  (m.map (fun p => g p.2)).sum

theorem sumTL_modifyTL (m : List (Nat × TransparentLayer)) (k : Nat)
    (f : TransparentLayer → TransparentLayer) (g : TransparentLayer → Nat)
    (d : Nat) (hnew : g TransparentLayer.new = 0)
    (hf : ∀ tl, g (f tl) = g tl + d) :
    sumTL (modifyTL m k f) g = sumTL m g + d := by
  induction m with
  | nil => simp [modifyTL, sumTL, hf, hnew]
  | cons p rest ih =>
    by_cases h : p.1 = k
    · simp [modifyTL, h, sumTL, hf]
      omega
    · simp [modifyTL, h, sumTL] at ih ⊢
      omega

/-- Total number of filled-quad instance records in the layer. -/
def Layer.quadCount (l : Layer) : Nat :=
  l.quads.length + sumTL l.transparent (fun tl => tl.quads.length)

/-- Total number of triangle-mesh vertices in the layer. -/
def Layer.meshVertexCount (l : Layer) : Nat :=
  l.triangles.vertices.length
    + sumTL l.transparent (fun tl => tl.triangles.vertices.length)

theorem fillCircleVertices_length (s : RState) (center : Point)
    (radius : ℚ) (color : Color4) (depth : ℚ) (clip : F4) :
    (fillCircleVertices s center radius color depth clip).length
      = circleSegments radius (2 / 100) + 1 := by
  simp [fillCircleVertices, tessellateCircle]

/-- Claim C5 counterexample: `fill` on a shape that is neither a
rectangle nor a circle (here, a line) emits no geometry at all — the
layer (in particular its triangle meshes) is left unchanged, refuting
"any other shape is tessellated into a triangle mesh appended to the
correct bucket". -/
theorem claim5_counterexample :
    (newContext.fill (Shape.line ⟨0, 0⟩ ⟨4, 2⟩) ⟨1, 0, 0, 1⟩).layer
      = newContext.layer ∧
    (newContext.fill (Shape.line ⟨0, 0⟩ ⟨4, 2⟩) ⟨1, 0, 0, 1⟩).layer.meshVertexCount
      = 0 :=
  ⟨rfl, rfl⟩

theorem addQuad_quadCount (l : Layer) (rect : F4) (color : Color4)
    (depth : ℚ) (clip : F4) (k : Nat) :
    (l.addQuad rect color depth clip k).quadCount = l.quadCount + 1 := by
  by_cases hA : color.a < 1
  · simp only [Layer.addQuad, if_pos hA, Layer.quadCount]
    rw [sumTL_modifyTL _ _ _ _ 1 rfl (fun tl => by simp)]
    omega
  · simp only [Layer.addQuad, if_neg hA, Layer.quadCount]
    simp
    omega

theorem addQuad_meshVertexCount (l : Layer) (rect : F4) (color : Color4)
    (depth : ℚ) (clip : F4) (k : Nat) :
    (l.addQuad rect color depth clip k).meshVertexCount = l.meshVertexCount := by
  by_cases hA : color.a < 1
  · simp only [Layer.addQuad, if_pos hA, Layer.meshVertexCount]
    rw [sumTL_modifyTL _ _ _ _ 0 rfl (fun tl => by simp)]
    omega
  · simp only [Layer.addQuad, if_neg hA, Layer.meshVertexCount]

theorem addMesh_quadCount (l : Layer) (t : Bool) (k : Nat)
    (vs : List Vertex) (is : List Nat) :
    (l.addMesh t k vs is).quadCount = l.quadCount := by
  cases t
  · rfl
  · simp only [Layer.addMesh, if_pos, Layer.quadCount]
    rw [sumTL_modifyTL _ _ _ _ 0 rfl (fun tl => by simp)]
    omega

theorem addMesh_meshVertexCount (l : Layer) (t : Bool) (k : Nat)
    (vs : List Vertex) (is : List Nat) :
    (l.addMesh t k vs is).meshVertexCount = l.meshVertexCount + vs.length := by
  cases t
  · simp only [Layer.addMesh, Bool.false_eq_true, if_neg, Layer.meshVertexCount,
      VertexBuffers.appendMesh]
    simp
    omega
  · simp only [Layer.addMesh, if_pos, Layer.meshVertexCount]
    rw [sumTL_modifyTL _ _ _ _ vs.length rfl
      (fun tl => by simp [VertexBuffers.appendMesh])]
    omega

/-- Claim C5 (amended): a rectangle fill emits exactly one filled-quad
instance record and no tessellation occurs; a circle fill is
tessellated into a triangle mesh (at least three vertices, never a
quad instance); any other shape is a no-op for the layer — no
geometry is emitted (`fill` has no general-path branch). -/
theorem claim5_fill_dispatch (s : RState) (shape : Shape) (color : Color4) :
    (∀ r, shape = Shape.rect r →
      (s.fill shape color).layer.quadCount = s.layer.quadCount + 1 ∧
      (s.fill shape color).layer.meshVertexCount = s.layer.meshVertexCount) ∧
    (∀ center radius, shape = Shape.circle center radius →
      (s.fill shape color).layer.quadCount = s.layer.quadCount ∧
      (s.fill shape color).layer.meshVertexCount
        = s.layer.meshVertexCount + (circleSegments radius (2 / 100) + 1) ∧
      3 ≤ circleSegments radius (2 / 100) + 1) ∧
    (shape.asRect = none → shape.asCircle = none →
      (s.fill shape color).layer = s.layer) := by
  refine ⟨?_, ?_, ?_⟩
  · rintro r rfl
    exact ⟨by simp [RState.fill, addQuad_quadCount],
           by simp [RState.fill, addQuad_meshVertexCount]⟩
  · rintro center radius rfl
    refine ⟨by simp [RState.fill, addMesh_quadCount], ?_, ?_⟩
    · simp [RState.fill, addMesh_meshVertexCount, fillCircleVertices_length]
    · have := circleSegments_ge radius (2 / 100)
      omega
  · intro hr hc
    cases shape with
    | rect r => simp [Shape.asRect] at hr
    | circle center radius => simp [Shape.asCircle] at hc
    | line p0 p1 => rfl
    | path els => rfl

theorem claim5_witness :
    (Shape.line ⟨0, 0⟩ ⟨4, 2⟩).asRect = none ∧
    (Shape.line ⟨0, 0⟩ ⟨4, 2⟩).asCircle = none ∧
    (newContext.fill (Shape.line ⟨0, 0⟩ ⟨4, 2⟩) ⟨1, 0, 0, 1/2⟩).layer
      = newContext.layer :=
  ⟨rfl, rfl,
   (claim5_fill_dispatch newContext (Shape.line ⟨0, 0⟩ ⟨4, 2⟩)
      ⟨1, 0, 0, 1/2⟩).2.2 rfl rfl⟩

/-- Claim C1: at `finish()` the layer first draws the opaque bucket
(quads then triangle mesh) with blending disabled, then disables depth
writes and draws the transparent buckets in strictly ascending
alpha-layer-index order (every bucket's commands complete before the
next bucket starts), and re-enables depth writes after all transparent
buckets. -/
theorem claim1_finish_draw_order (s : RState)
    (h : (tKeys s.layer.transparent).Nodup) :
    finishCmds s
      = [Cmd.clearAll, Cmd.enableDepthTest, Cmd.depthMask true,
         Cmd.disableBlend, Cmd.blendFuncAlpha,
         Cmd.drawQuads s.layer.quads, Cmd.drawTriangles s.layer.triangles,
         Cmd.depthMask false]
        ++ ((sortedKeys s.layer).map
              (fun k => bucketCmds (tlAt s.layer.transparent k))).flatten
        ++ [Cmd.disableBlend, Cmd.depthMask true] ∧
    List.Sorted (· < ·) (sortedKeys s.layer) ∧
    List.Perm (sortedKeys s.layer) (tKeys s.layer.transparent) := by
  have hperm : List.Perm (sortedKeys s.layer) (tKeys s.layer.transparent) :=
    List.perm_insertionSort _ _
  refine ⟨?_, ?_, hperm⟩
  · simp [finishCmds, layerDraw]
  · have hle : List.Sorted (· ≤ ·) (sortedKeys s.layer) :=
      List.sorted_insertionSort _ _
    exact hle.lt_of_le (hperm.symm.nodup h)

/-- A layer holding transparent buckets at indices 2 and 0, inserted in
that (unsorted) order. -/
def layerC1 : Layer :=
  ⟨[], VertexBuffers.empty,
   [(2, TransparentLayer.new), (0, TransparentLayer.new)]⟩

def stateC1 : RState := { newContext with layer := layerC1 }

theorem claim1_witness :
    (tKeys stateC1.layer.transparent).Nodup ∧
    (List.Sorted (· < ·) (sortedKeys stateC1.layer) ∧
     List.Perm (sortedKeys stateC1.layer) (tKeys stateC1.layer.transparent)) :=
  ⟨by decide,
   ⟨(claim1_finish_draw_order stateC1 (by decide)).2.1,
    (claim1_finish_draw_order stateC1 (by decide)).2.2⟩⟩

theorem tKeys_modifyTL_nodup (m : List (Nat × TransparentLayer)) (k : Nat)
    (f : TransparentLayer → TransparentLayer) (h : (tKeys m).Nodup) :
    (tKeys (modifyTL m k f)).Nodup := by
  rw [tKeys_modifyTL]
  by_cases hmem : k ∈ tKeys m
  · simpa [hmem] using h
  · simp [hmem, List.nodup_append, h]

/-- The transparent mapping never holds two buckets with the same
alpha-layer index. -/
def keysNodup (s : RState) : Prop := (tKeys s.layer.transparent).Nodup

theorem keysNodup_execOp (o : Op) (s : RState) (h : keysNodup s) :
    keysNodup (execOp s o) := by
  cases o with
  | save => exact h
  | restore =>
    cases hs : s.stateStack with
    | nil => simpa [keysNodup, execOp, RState.restore, hs] using h
    | cons f fs =>
      simpa [keysNodup, execOp, RState.restore, hs, RState.addPrimitive] using h
  | xform m =>
    simpa [keysNodup, execOp, RState.transformBy, RState.addPrimitive] using h
  | clip shape =>
    cases hc : s.getCurrentClip with
    | none =>
      cases hr : shape.asRect with
      | none =>
        simpa [keysNodup, execOp, RState.clipNested, hc, RState.clipOverride, hr] using h
      | some r =>
        simpa [keysNodup, execOp, RState.clipNested, hc, RState.clipOverride, hr,
          RState.addClipRect, RState.addPrimitive] using h
    | some cur =>
      cases hr : shape.asRect with
      | none => simpa [keysNodup, execOp, RState.clipNested, hc, hr] using h
      | some r =>
        simpa [keysNodup, execOp, RState.clipNested, hc, hr,
          RState.addClipRect, RState.addPrimitive] using h
  | incrAlpha => simpa [keysNodup, execOp, RState.incrAlphaDepth] using h
  | setAlpha n => simpa [keysNodup, execOp, RState.setAlphaDepth] using h
  | fill shape color =>
    cases shape with
    | rect r =>
      by_cases hA : color.a < 1
      · simpa [keysNodup, execOp, RState.fill, Layer.addQuad, hA] using
          tKeys_modifyTL_nodup _ _ _ h
      · simpa [keysNodup, execOp, RState.fill, Layer.addQuad, hA] using h
    | circle center radius =>
      by_cases hA : color.a < 1
      · simpa [keysNodup, execOp, RState.fill, Layer.addMesh, hA] using
          tKeys_modifyTL_nodup _ _ _ h
      · simpa [keysNodup, execOp, RState.fill, Layer.addMesh, hA] using h
    | line p0 p1 => simpa [keysNodup, execOp, RState.fill] using h
    | path els => simpa [keysNodup, execOp, RState.fill] using h
  | stroke shape color width =>
    by_cases hA : color.a < 1
    · simpa [keysNodup, execOp, RState.stroke, Layer.addMesh, hA] using
        tKeys_modifyTL_nodup _ _ _ h
    · simpa [keysNodup, execOp, RState.stroke, Layer.addMesh, hA] using h
  | blur rect radius color =>
    simpa [keysNodup, execOp, RState.blurredRect, Layer.addBlurredQuad] using
      tKeys_modifyTL_nodup _ _ _ h

/-- Every state reachable in a frame has unique alpha-layer keys, so
the distinctness hypothesis of the draw-order theorem always holds. -/
theorem keysNodup_run (p : List Op) : keysNodup (run newContext p) := by
  have hstep : ∀ q s, keysNodup s → keysNodup (run s q) := by
    intro q
    induction q with
    | nil => intro s hs; exact hs
    | cons o q ih => intro s hs; exact ih (execOp s o) (keysNodup_execOp o s hs)
  exact hstep p newContext (by simp [keysNodup, newContext, RState.addPrimitive, tKeys, Layer.new])

end PietWgpu









